import Mathlib

/-!
Verification of the distributed-table metadata cache
(`src/backend/distributed/utils/metadata_cache.c`).

The C code is shallowly embedded: machine integers become `Int`/`Nat` with
explicit truncation where the C performs implicit conversions, catalog scans
become lookups into an explicit `Catalog` value, the global hash tables become
explicit state records, and `ereport(ERROR, ...)` becomes `Except`.
-/

deriving instance DecidableEq for Except

namespace Citus

/-- `InvalidOid` in PostgreSQL is 0. -/
def InvalidOid : Nat := 0

def INT32_MIN : Int := -2147483648

def INT32_MAX : Int := 2147483647

/-- Modelled from the spec: `HASH_TOKEN_COUNT` is defined in a repository
header that is not part of `src/`; the spec fixes the hash-token space as the
32-bit signed range `[INT32_MIN, INT32_MAX]`, i.e. `2^32` tokens. -/
def HASH_TOKEN_COUNT : Nat := 4294967296

/-- Truncation of an integer to a signed 32-bit value, as performed by a C
assignment to an `int32` variable (two's-complement wraparound).  Only the
value modulo `2^32` matters, so the C `uint64` intermediates in
`HasUniformHashDistribution` are absorbed by this single truncation. -/
def toInt32 (z : Int) : Int :=
  if z % 4294967296 < 2147483648 then z % 4294967296
  else z % 4294967296 - 4294967296

/-- `DatumGetInt32`: a `Datum` is modelled as `Int`; reading it as an `int32`
truncates. -/
def DatumGetInt32 (d : Int) : Int := toInt32 d

/-- `ShardInterval` (from `distributed/shardinterval_utils.h`), with the typed
min/max datums modelled as `Int`. -/
structure ShardInterval where
  relationId : Nat
  shardId : Int
  storageType : Char
  valueTypeId : Nat
  valueTypeLen : Int
  valueByVal : Bool
  minValueExists : Bool
  maxValueExists : Bool
  minValue : Int
  maxValue : Int
deriving DecidableEq, Repr

/-- Body of the per-shard check in `HasUniformHashDistribution`'s `for` loop:
`shardMinHashToken = INT32_MIN + (shardIndex * hashTokenIncrement)` and
`shardMaxHashToken = shardMinHashToken + (hashTokenIncrement - 1)` are `int32`
variables assigned from `uint64` arithmetic, hence the truncations (truncating
to `int32` depends only on the value modulo `2^32`, so the `uint64`
intermediates need not be modelled separately); the last shard's max token is
overridden with `INT32_MAX`. -/
def uniformShardOk (n shardIndex : Nat) (s : ShardInterval) : Bool :=
  DatumGetInt32 s.minValue ==
      toInt32 (INT32_MIN + (shardIndex * (HASH_TOKEN_COUNT / n) : Nat)) &&
    DatumGetInt32 s.maxValue ==
      (if shardIndex = n - 1 then INT32_MAX
       else toInt32 (toInt32 (INT32_MIN + (shardIndex * (HASH_TOKEN_COUNT / n) : Nat)) +
                     (((HASH_TOKEN_COUNT / n : Nat) : Int) - 1)))

/-- `HasUniformHashDistribution`: true iff the sorted shard array is non-empty
and every shard's min/max datum equals the canonical token-range bounds. -/
def HasUniformHashDistribution (shardIntervalArray : List ShardInterval) : Bool :=
  if shardIntervalArray.length = 0 then false
  else
    (List.range shardIntervalArray.length).all fun shardIndex =>
      match shardIntervalArray[shardIndex]? with
      | some s => uniformShardOk shardIntervalArray.length shardIndex s
      | none => false

/-- `HasUninitializedShardInterval`: checks whether the last element of the
sorted array lacks a min or max bound; false for an empty array. -/
def HasUninitializedShardInterval (sortedShardIntervalArray : List ShardInterval) : Bool :=
  if sortedShardIntervalArray.length = 0 then false
  else
    match sortedShardIntervalArray[sortedShardIntervalArray.length - 1]? with
    | some lastShardInterval =>
        !lastShardInterval.minValueExists || !lastShardInterval.maxValueExists
    | none => false

/-- The uniform-hash layout as the specification words it, with exact integer
arithmetic (`width = floor(2^32 / N)`, range `i` starting at
`INT32_MIN + i * width`, the last range's upper bound forced to `INT32_MAX`).
Used to compare the spec's wording against `HasUniformHashDistribution`. -/
def specUniformHashDistribution (shards : List ShardInterval) : Prop :=
  shards ≠ [] ∧
  ∀ i (h : i < shards.length),
    (shards.get ⟨i, h⟩).minValue =
        INT32_MIN + (i : Int) * ((HASH_TOKEN_COUNT / shards.length : Nat) : Int) ∧
    (shards.get ⟨i, h⟩).maxValue =
      (if i = shards.length - 1 then INT32_MAX
       else INT32_MIN + (i : Int) * ((HASH_TOKEN_COUNT / shards.length : Nat) : Int) +
            (((HASH_TOKEN_COUNT / shards.length : Nat) : Int) - 1))

theorem toInt32_eq_self (z : Int) (h1 : -2147483648 ≤ z) (h2 : z < 2147483648) :
    toInt32 z = z := by
  unfold toInt32
  split <;> omega

theorem hashTokenIncrement_ge_two (n : Nat) (hn1 : 0 < n) (hn : n ≤ 2147483647) :
    2 ≤ HASH_TOKEN_COUNT / n := by
  rw [Nat.le_div_iff_mul_le hn1]
  unfold HASH_TOKEN_COUNT
  omega

theorem mul_hashTokenIncrement_le (n : Nat) :
    n * (HASH_TOKEN_COUNT / n) ≤ HASH_TOKEN_COUNT := by
  rw [Nat.mul_comm]
  exact Nat.div_mul_le_self _ _

/-- For a shard index below the shard count, the truncated min-token
computation coincides with the exact arithmetic of the spec, because
`i * floor(2^32 / n)` never leaves `[0, 2^32 - 2]`. -/
theorem shardMinToken_eq (n i : Nat) (hn : n ≤ 2147483647) (hi : i < n) :
    toInt32 (INT32_MIN + ((i * (HASH_TOKEN_COUNT / n) : Nat) : Int)) =
      INT32_MIN + (i : Int) * ((HASH_TOKEN_COUNT / n : Nat) : Int) := by
  have h2 : 2 ≤ HASH_TOKEN_COUNT / n := hashTokenIncrement_ge_two n (by omega) hn
  have hib : i * (HASH_TOKEN_COUNT / n) + (HASH_TOKEN_COUNT / n) ≤ HASH_TOKEN_COUNT := by
    calc i * (HASH_TOKEN_COUNT / n) + (HASH_TOKEN_COUNT / n)
        = (i + 1) * (HASH_TOKEN_COUNT / n) := by ring
      _ ≤ n * (HASH_TOKEN_COUNT / n) := Nat.mul_le_mul_right _ hi
      _ ≤ HASH_TOKEN_COUNT := mul_hashTokenIncrement_le n
  rw [toInt32_eq_self]
  · rw [Nat.cast_mul]
  · unfold INT32_MIN
    have : (0 : Int) ≤ ((i * (HASH_TOKEN_COUNT / n) : Nat) : Int) := Int.ofNat_nonneg _
    omega
  · unfold INT32_MIN HASH_TOKEN_COUNT at *
    revert hib h2
    generalize i * (4294967296 / n) = m
    generalize 4294967296 / n = inc
    intro hib h2
    omega

/-- For a non-final shard index, the truncated max-token computation coincides
with the exact arithmetic of the spec. -/
theorem shardMaxToken_eq (n i : Nat) (hn : n ≤ 2147483647) (hi : i < n)
    (hlast : i ≠ n - 1) :
    toInt32 (INT32_MIN + (i : Int) * ((HASH_TOKEN_COUNT / n : Nat) : Int) +
             (((HASH_TOKEN_COUNT / n : Nat) : Int) - 1)) =
      INT32_MIN + (i : Int) * ((HASH_TOKEN_COUNT / n : Nat) : Int) +
        (((HASH_TOKEN_COUNT / n : Nat) : Int) - 1) := by
  have h2 : 2 ≤ HASH_TOKEN_COUNT / n := hashTokenIncrement_ge_two n (by omega) hn
  have hi2 : i + 2 ≤ n := by omega
  have hib : (i + 2) * (HASH_TOKEN_COUNT / n) ≤ HASH_TOKEN_COUNT := by
    calc (i + 2) * (HASH_TOKEN_COUNT / n)
        ≤ n * (HASH_TOKEN_COUNT / n) := Nat.mul_le_mul_right _ hi2
      _ ≤ HASH_TOKEN_COUNT := mul_hashTokenIncrement_le n
  have hib' : i * (HASH_TOKEN_COUNT / n) + 2 * (HASH_TOKEN_COUNT / n) ≤ HASH_TOKEN_COUNT := by
    calc i * (HASH_TOKEN_COUNT / n) + 2 * (HASH_TOKEN_COUNT / n)
        = (i + 2) * (HASH_TOKEN_COUNT / n) := by ring
      _ ≤ HASH_TOKEN_COUNT := hib
  apply toInt32_eq_self <;>
  · rw [← Nat.cast_mul]
    unfold INT32_MIN HASH_TOKEN_COUNT at *
    revert hib' h2
    generalize i * (4294967296 / n) = m
    generalize 4294967296 / n = inc
    intro hib' h2
    omega

/-- Per-shard equivalence between the C check (with `int32` truncation) and
the spec formula (with exact arithmetic), for shard values that are genuine
32-bit values. -/
theorem uniformShardOk_iff (n i : Nat) (s : ShardInterval)
    (hn : n ≤ 2147483647) (hi : i < n)
    (hs : INT32_MIN ≤ s.minValue ∧ s.minValue ≤ INT32_MAX ∧
          INT32_MIN ≤ s.maxValue ∧ s.maxValue ≤ INT32_MAX) :
    uniformShardOk n i s = true ↔
      (s.minValue = INT32_MIN + (i : Int) * ((HASH_TOKEN_COUNT / n : Nat) : Int) ∧
       s.maxValue =
         (if i = n - 1 then INT32_MAX
          else INT32_MIN + (i : Int) * ((HASH_TOKEN_COUNT / n : Nat) : Int) +
               (((HASH_TOKEN_COUNT / n : Nat) : Int) - 1))) := by
  obtain ⟨hs1, hs2, hs3, hs4⟩ := hs
  simp only [INT32_MIN, INT32_MAX] at hs1 hs2 hs3 hs4
  have hminv : toInt32 s.minValue = s.minValue := toInt32_eq_self _ hs1 (by omega)
  have hmaxv : toInt32 s.maxValue = s.maxValue := toInt32_eq_self _ hs3 (by omega)
  unfold uniformShardOk DatumGetInt32
  rw [hminv, hmaxv, shardMinToken_eq n i hn hi]
  by_cases hlast : i = n - 1
  · simp only [if_pos hlast, Bool.and_eq_true, beq_iff_eq]
  · rw [if_neg hlast, if_neg hlast, shardMaxToken_eq n i hn hi hlast]
    simp only [Bool.and_eq_true, beq_iff_eq]

/-- The all-shards loop of `HasUniformHashDistribution`, rephrased as a
universally quantified statement over in-bounds indices. -/
theorem hasUniform_iff_forall (shards : List ShardInterval) (h0 : shards.length ≠ 0) :
    HasUniformHashDistribution shards = true ↔
      ∀ i (h : i < shards.length),
        uniformShardOk shards.length i (shards.get ⟨i, h⟩) = true := by
  unfold HasUniformHashDistribution
  rw [if_neg h0, List.all_eq_true]
  constructor
  · intro hall i hi
    have hmem := hall i (List.mem_range.mpr hi)
    rw [List.getElem?_eq_getElem hi] at hmem
    simpa [List.get_eq_getElem] using hmem
  · intro hfa x hx
    have hx' := List.mem_range.mp hx
    rw [List.getElem?_eq_getElem hx']
    simpa [List.get_eq_getElem] using hfa x hx'

/-- Claim C1: for a HASH-partitioned table, `HasUniformHashDistribution` is
true iff the sorted shard array is non-empty and, with `N` the shard count and
`width = floor(2^32 / N)`, shard `i` has `minValue = INT32_MIN + i·width` and
`maxValue = INT32_MIN + i·width + (width - 1)`, the last shard's required
`maxValue` being `INT32_MAX` instead; any deviation or an empty shard set
yields false.  The hypotheses record that the shard count fits in a C `int`
and that the shard bounds are 32-bit values, as they are for hash shards. -/
theorem C1_hasUniformHashDistribution_characterization (shards : List ShardInterval)
    (hn : shards.length ≤ 2147483647)
    (hrange : ∀ s ∈ shards, INT32_MIN ≤ s.minValue ∧ s.minValue ≤ INT32_MAX ∧
                            INT32_MIN ≤ s.maxValue ∧ s.maxValue ≤ INT32_MAX) :
    HasUniformHashDistribution shards = true ↔ specUniformHashDistribution shards := by
  rcases eq_or_ne shards.length 0 with h0 | h0
  · have hnil : shards = [] := List.length_eq_zero.mp h0
    subst hnil
    simp [HasUniformHashDistribution, specUniformHashDistribution]
  · rw [hasUniform_iff_forall shards h0]
    unfold specUniformHashDistribution
    constructor
    · intro hfa
      refine ⟨fun h => h0 (by simp [h]), fun i hi => ?_⟩
      exact (uniformShardOk_iff shards.length i _ hn hi
        (hrange _ (shards.get_mem _ _))).mp (hfa i hi)
    · rintro ⟨-, hfa⟩ i hi
      exact (uniformShardOk_iff shards.length i _ hn hi
        (hrange _ (shards.get_mem _ _))).mpr (hfa i hi)

/-- The spec's concrete 4-shard scenario: bounds `(INT32_MIN, INT32_MIN+2^30-1)`,
`(INT32_MIN+2^30, INT32_MIN+2^31-1)`, `(INT32_MIN+2^31, INT32_MIN+3·2^30-1)`,
`(INT32_MIN+3·2^30, INT32_MAX)`. -/
def hashShardScenario : List ShardInterval :=
  [⟨10, 101, 't', 23, 4, true, true, true, -2147483648, -1073741825⟩,
   ⟨10, 102, 't', 23, 4, true, true, true, -1073741824, -1⟩,
   ⟨10, 103, 't', 23, 4, true, true, true, 0, 1073741823⟩,
   ⟨10, 104, 't', 23, 4, true, true, true, 1073741824, 2147483647⟩]

/-- Witness for C1 at the spec's concrete 4-shard scenario; it also records
that the scenario evaluates to `true`. -/
theorem C1_witness :
    (hashShardScenario.length ≤ 2147483647 ∧
     ∀ s ∈ hashShardScenario, INT32_MIN ≤ s.minValue ∧ s.minValue ≤ INT32_MAX ∧
                              INT32_MIN ≤ s.maxValue ∧ s.maxValue ≤ INT32_MAX) ∧
    (HasUniformHashDistribution hashShardScenario = true ↔
       specUniformHashDistribution hashShardScenario) ∧
    HasUniformHashDistribution hashShardScenario = true :=
  ⟨⟨by decide, by decide⟩,
   C1_hasUniformHashDistribution_characterization hashShardScenario (by decide) (by decide),
   by decide⟩

/-- Claim C2: `HasUninitializedShardInterval` is true iff the shard set is
non-empty and the last element of the sorted shard array lacks a bound; for an
empty shard set it is false. -/
theorem C2_hasUninitializedShardInterval_characterization
    (sorted : List ShardInterval) :
    HasUninitializedShardInterval sorted = true ↔
      sorted ≠ [] ∧ ∃ last, sorted.getLast? = some last ∧
        (last.minValueExists = false ∨ last.maxValueExists = false) := by
  unfold HasUninitializedShardInterval
  rcases eq_or_ne sorted.length 0 with h0 | h0
  · have hnil : sorted = [] := List.length_eq_zero.mp h0
    subst hnil
    simp
  · have hne : sorted ≠ [] := fun h => h0 (by simp [h])
    rw [if_neg h0]
    rw [← List.getLast?_eq_getElem?]
    obtain ⟨last, hlast⟩ := Option.ne_none_iff_exists'.mp
      (mt List.getLast?_eq_none_iff.mp hne)
    rw [hlast]
    simp only [hne, ne_eq, not_false_eq_true, true_and]
    constructor
    · intro h
      refine ⟨last, rfl, ?_⟩
      rcases Bool.or_eq_true_iff.mp h with h1 | h1
      · exact Or.inl (by simpa using h1)
      · exact Or.inr (by simpa using h1)
    · rintro ⟨l, hl, hcase⟩
      obtain rfl : last = l := by injection hl
      rcases hcase with h1 | h1 <;> simp [h1]

/-- The spec's RANGE scenario: bounds `(0, 99)`, `(100, 199)`, and one shard
with no bounds at all, in sorted order. -/
def uninitScenario : List ShardInterval :=
  [⟨20, 301, 't', 23, 4, true, true, true, 0, 99⟩,
   ⟨20, 302, 't', 23, 4, true, true, true, 100, 199⟩,
   ⟨20, 303, 't', 23, 4, true, false, false, 0, 0⟩]

/-- Witness for C2 at the spec's RANGE scenario with one unbounded shard. -/
theorem C2_witness :
    HasUninitializedShardInterval uninitScenario = true ↔
      uninitScenario ≠ [] ∧ ∃ last, uninitScenario.getLast? = some last ∧
        (last.minValueExists = false ∨ last.maxValueExists = false) :=
  C2_hasUninitializedShardInterval_characterization uninitScenario

/-! ## Catalog rows, external capabilities, and the environment -/

/-- An `FmgrInfo` capability (comparison or hash function) is opaque to this
subsystem; it is identified by the function it wraps. -/
abbrev FmgrInfo := Nat

/-- `INT4OID` from `pg_type.h`. -/
def INT4OID : Nat := 23

/-- A `pg_dist_partition` row. -/
structure PartitionRow where
  logicalrelid : Nat
  partmethod : Char
  partkey : String
  isowner : Bool
  iscluster : Bool
deriving DecidableEq, Repr

/-- A `pg_dist_shard` row; the min/max columns are nullable text. -/
structure ShardRow where
  logicalrelid : Nat
  shardid : Int
  shardstorage : Char
  shardminvalue : Option String
  shardmaxvalue : Option String
deriving DecidableEq, Repr

/-- The catalog tables read through indexed scans. -/
structure Catalog where
  partitionRows : List PartitionRow
  shardRows : List ShardRow

/-- The errors raised (`ereport(ERROR, ...)`) on the paths modelled here. -/
inductive LookupError where
  | unsupportedPartitionMethod
  | typeResolutionFailed
  | parseFailed
  | notDistributed
  | cacheLookupFailed
deriving DecidableEq, Repr

/-- The external collaborators: the catalog reader plus the type-coercion
gateway (`stringToNode`/`vartype`, `get_type_io_data`, `OidInputFunctionCall`,
`GetFunctionInfo`, `lookup_type_cache`), and the extension probe used by
`CitusHasBeenLoaded`. -/
structure Env where
  catalog : Catalog
  varType : String → Option (Nat × Int)
  typeIoData : Nat → Option (Int × Bool)
  parseValue : Nat → Int → String → Option Int
  resolveCompare : Nat → Option FmgrInfo
  resolveHash : Nat → Option FmgrInfo
  extensionOid : Nat
  creatingExtension : Bool
  currentExtensionObject : Nat
  relnameOid : String → Nat

/-- `DistTableCacheEntry`, keyed by `relationId`. -/
structure DistTableCacheEntry where
  relationId : Nat
  isValid : Bool
  isDistributedTable : Bool
  isOwner : Bool
  isCluster : Bool
  partitionKeyString : Option String
  partitionMethod : Char
  shardIntervalArrayLength : Nat
  sortedShardIntervalArray : List ShardInterval
  shardIntervalCompareFunction : Option FmgrInfo
  hashFunction : Option FmgrInfo
  hasUninitializedShardInterval : Bool
  hasUniformHashDistribution : Bool
deriving DecidableEq, Repr

/-- The `DistTableCacheHash` table (one entry per relation id) plus a counter
of catalog scans issued, used to express the no-rescan fast-path property. -/
structure CacheState where
  cache : List DistTableCacheEntry
  scanCount : Nat
deriving DecidableEq, Repr

/-- `hash_search(.., HASH_FIND, ..)` on the dist-table cache. -/
def findEntry (cache : List DistTableCacheEntry) (relationId : Nat) :
    Option DistTableCacheEntry :=
  cache.find? (fun e => e.relationId == relationId)

/-- `hash_search(.., HASH_ENTER, ..)` followed by filling the slot: replaces
the entry with the given key, or adds one. -/
def setEntry : List DistTableCacheEntry → Nat → DistTableCacheEntry →
    List DistTableCacheEntry
  | [], _, e => [e]
  | x :: rest, relationId, e =>
      if x.relationId = relationId then e :: rest
      else x :: setEntry rest relationId e

/-- The point-invalidation step of `InvalidateDistRelationCacheCallback`:
find the entry and clear its `isValid` flag, touching nothing else. -/
def invalidateEntry : List DistTableCacheEntry → Nat → List DistTableCacheEntry
  | [], _ => []
  | e :: rest, relationId =>
      if e.relationId = relationId then { e with isValid := false } :: rest
      else e :: invalidateEntry rest relationId

/-- `ResetDistTableCacheEntry` frees an entry's out-of-band state: the
partition key string always; the shard array, derived booleans and comparison
function only when the shard array is non-empty; the hash function only when,
additionally, the partition method is HASH. -/
def ResetDistTableCacheEntry (e : DistTableCacheEntry) : DistTableCacheEntry :=
  let e1 := { e with partitionKeyString := none }
  if e1.shardIntervalArrayLength > 0 then
    { e1 with sortedShardIntervalArray := [],
              shardIntervalArrayLength := 0,
              hasUninitializedShardInterval := false,
              hasUniformHashDistribution := false,
              shardIntervalCompareFunction := none,
              hashFunction := if e1.partitionMethod = 'h' then none else e1.hashFunction }
  else e1

/-! ## Entry construction -/

/-- `GetPartitionTypeInputInfo`: APPEND/RANGE take the distribution column's
type and typmod from the deserialized partition key; HASH always yields
`INT4OID` with the default typmod; anything else errors. -/
def GetPartitionTypeInputInfo (env : Env) (partitionKeyString : Option String)
    (partitionMethod : Char) : Except LookupError (Nat × Int) :=
  if partitionMethod = 'a' ∨ partitionMethod = 'r' then
    match partitionKeyString with
    | some key =>
        match env.varType key with
        | some typeInfo => .ok typeInfo
        | none => .error .typeResolutionFailed
    | none => .error .typeResolutionFailed
  else if partitionMethod = 'h' then .ok (INT4OID, -1)
  else .error .unsupportedPartitionMethod

/-- `TupleToShardInterval`: when both textual bounds are present they are
parsed through the type input function (after `get_type_io_data`); when either
is absent, both `exists` flags stay false and the values stay zero. -/
def TupleToShardInterval (env : Env) (row : ShardRow) (intervalTypeId : Nat)
    (intervalTypeMod : Int) : Except LookupError ShardInterval :=
  match row.shardminvalue, row.shardmaxvalue with
  | some minValueString, some maxValueString =>
      match env.typeIoData intervalTypeId with
      | none => .error .typeResolutionFailed
      | some io =>
          match env.parseValue intervalTypeId intervalTypeMod minValueString,
                env.parseValue intervalTypeId intervalTypeMod maxValueString with
          | some minValue, some maxValue =>
              .ok { relationId := row.logicalrelid, shardId := row.shardid,
                    storageType := row.shardstorage, valueTypeId := intervalTypeId,
                    valueTypeLen := io.1, valueByVal := io.2,
                    minValueExists := true, maxValueExists := true,
                    minValue := minValue, maxValue := maxValue }
          | _, _ => .error .parseFailed
  | _, _ =>
      .ok { relationId := row.logicalrelid, shardId := row.shardid,
            storageType := row.shardstorage, valueTypeId := intervalTypeId,
            valueTypeLen := 0, valueByVal := false,
            minValueExists := false, maxValueExists := false,
            minValue := 0, maxValue := 0 }

/-- The `foreach` loop converting every shard tuple, propagating the first
error. -/
def buildShardIntervalList (env : Env) (intervalTypeId : Nat) (intervalTypeMod : Int) :
    List ShardRow → Except LookupError (List ShardInterval)
  | [] => .ok []
  | row :: rest =>
      match TupleToShardInterval env row intervalTypeId intervalTypeMod with
      | .error e => .error e
      | .ok shardInterval =>
          match buildShardIntervalList env intervalTypeId intervalTypeMod rest with
          | .error e => .error e
          | .ok rest' => .ok (shardInterval :: rest')

/-- `ShardIntervalCompareFunction`: HASH always compares as 32-bit integers;
otherwise the first shard's value type decides.  Callers guarantee a non-empty
array. -/
def ShardIntervalCompareFunction (env : Env) (shardIntervalArray : List ShardInterval)
    (partitionMethod : Char) : Except LookupError FmgrInfo :=
  let comparisonTypeId :=
    if partitionMethod = 'h' then INT4OID
    else match shardIntervalArray.head? with
         | some shardInterval => shardInterval.valueTypeId
         | none => InvalidOid
  match env.resolveCompare comparisonTypeId with
  | some f => .ok f
  | none => .error .typeResolutionFailed

/-- Insertion into a min-value-sorted prefix. -/
def insertShard (s : ShardInterval) : List ShardInterval → List ShardInterval
  | [] => [s]
  | t :: rest => if s.minValue ≤ t.minValue then s :: t :: rest
                 else t :: insertShard s rest

/-- Insertion sort by `minValue`. -/
def sortByMinValue : List ShardInterval → List ShardInterval
  | [] => []
  | s :: rest => insertShard s (sortByMinValue rest)

/-- Modelled from the spec: `SortShardIntervalArray` delegates to
`CompareShardIntervals`/`qsort` in `shardinterval_utils.c`, which is not under
`src/`; per the spec, shards with `minValueExists = false` are placed after
all bounded shards, and bounded shards are ordered by ascending `minValue`. -/
def SortShardIntervalArray (shardIntervalArray : List ShardInterval) :
    List ShardInterval :=
  sortByMinValue (shardIntervalArray.filter (fun s => s.minValueExists)) ++
    shardIntervalArray.filter (fun s => !s.minValueExists)

/-- The HASH-only tail of the build: deserialize the partition column, resolve
the type's hash function, and run the uniform-distribution check. -/
def resolveHashInfo (env : Env) (partitionKeyString : Option String)
    (partitionMethod : Char) (sortedShardIntervalArray : List ShardInterval) :
    Except LookupError (Option FmgrInfo × Bool) :=
  if partitionMethod = 'h' then
    match partitionKeyString with
    | none => .error .typeResolutionFailed
    | some key =>
        match env.varType key with
        | none => .error .typeResolutionFailed
        | some typeInfo =>
            match env.resolveHash typeInfo.1 with
            | none => .error .typeResolutionFailed
            | some hashFunction =>
                .ok (some hashFunction,
                     HasUniformHashDistribution sortedShardIntervalArray)
  else .ok (none, false)

/-- The partition method read from the partition tuple; `partitionMethod`
stays `0` when no tuple was found. -/
def partMethodOf : Option PartitionRow → Char
  | some r => r.partmethod
  | none => Char.ofNat 0

/-- The shard-array part of a rebuild: only entered when there are shard rows,
in which case the interval type is resolved and every tuple converted. -/
def buildShardArrayStep (env : Env) (partRow : Option PartitionRow)
    (shardRows : List ShardRow) : Except LookupError (List ShardInterval) :=
  if shardRows.length > 0 then
    match GetPartitionTypeInputInfo env (partRow.map PartitionRow.partkey)
            (partMethodOf partRow) with
    | .error e => .error e
    | .ok typeInfo => buildShardIntervalList env typeInfo.1 typeInfo.2 shardRows
  else .ok []

/-- The comparison-function part of a rebuild: allocated only when there are
shard rows. -/
def compareFnStep (env : Env) (partRow : Option PartitionRow)
    (shardIntervalArray : List ShardInterval) (shardCount : Nat) :
    Except LookupError (Option FmgrInfo) :=
  if shardCount > 0 then
    match ShardIntervalCompareFunction env shardIntervalArray (partMethodOf partRow) with
    | .error e => .error e
    | .ok f => .ok (some f)
  else .ok none

/-- The final slot contents: the C code zeroes the entry and fills it as a
distributed entry when a partition tuple was found, otherwise leaves
everything cleared except `isValid`. -/
def assembleEntry (relationId : Nat) (partRow : Option PartitionRow)
    (shardCount : Nat) (shardIntervalArray : List ShardInterval)
    (shardIntervalCompareFunction : Option FmgrInfo)
    (hashInfo : Option FmgrInfo × Bool) : DistTableCacheEntry :=
  match partRow with
  | some r =>
      { relationId := relationId, isValid := true, isDistributedTable := true,
        isOwner := r.isowner, isCluster := r.iscluster,
        partitionKeyString := some r.partkey, partitionMethod := r.partmethod,
        shardIntervalArrayLength := shardCount,
        sortedShardIntervalArray := SortShardIntervalArray shardIntervalArray,
        shardIntervalCompareFunction := shardIntervalCompareFunction,
        hashFunction := hashInfo.1,
        hasUninitializedShardInterval :=
          HasUninitializedShardInterval (SortShardIntervalArray shardIntervalArray),
        hasUniformHashDistribution := hashInfo.2 }
  | none =>
      { relationId := relationId, isValid := true, isDistributedTable := false,
        isOwner := false, isCluster := false, partitionKeyString := none,
        partitionMethod := Char.ofNat 0, shardIntervalArrayLength := 0,
        sortedShardIntervalArray := [], shardIntervalCompareFunction := none,
        hashFunction := none, hasUninitializedShardInterval := false,
        hasUniformHashDistribution := false }

/-- The pure body of a rebuild in `LookupDistTableCacheEntry`: everything
between the catalog reads and the final `hash_search(HASH_ENTER)` write. -/
def buildCacheEntry (env : Env) (relationId : Nat) (partRow : Option PartitionRow)
    (shardRows : List ShardRow) : Except LookupError DistTableCacheEntry :=
  match buildShardArrayStep env partRow shardRows with
  | .error e => .error e
  | .ok shardIntervalArray =>
      match compareFnStep env partRow shardIntervalArray shardRows.length with
      | .error e => .error e
      | .ok shardIntervalCompareFunction =>
          match resolveHashInfo env (partRow.map PartitionRow.partkey)
                  (partMethodOf partRow) (SortShardIntervalArray shardIntervalArray) with
          | .error e => .error e
          | .ok hashInfo =>
              .ok (assembleEntry relationId partRow shardRows.length
                     shardIntervalArray shardIntervalCompareFunction hashInfo)

/-- The rebuild path of `LookupDistTableCacheEntry`: `LookupDistPartitionTuple`
(one indexed scan), `LookupDistShardTuples` (one indexed scan), the pure build,
and — only if the whole build succeeded — the `HASH_ENTER` write of the slot. -/
def rebuildEntry (env : Env) (st : CacheState) (relationId : Nat) :
    Except LookupError DistTableCacheEntry × CacheState :=
  match buildCacheEntry env relationId
          (env.catalog.partitionRows.find? (fun r => r.logicalrelid == relationId))
          (env.catalog.shardRows.filter (fun r => r.logicalrelid == relationId)) with
  | .error e => (.error e, { st with scanCount := st.scanCount + 2 })
  | .ok entry => (.ok entry, { cache := setEntry st.cache relationId entry,
                               scanCount := st.scanCount + 2 })

/-- `LookupDistTableCacheEntry`: return a valid cached entry directly; reset
the content of an invalid cached entry and rebuild; rebuild on a miss. -/
def LookupDistTableCacheEntry (env : Env) (st : CacheState) (relationId : Nat) :
    Except LookupError DistTableCacheEntry × CacheState :=
  match findEntry st.cache relationId with
  | some cacheEntry =>
      if cacheEntry.isValid then (.ok cacheEntry, st)
      else
        rebuildEntry env
          { st with cache := setEntry st.cache relationId
                      (ResetDistTableCacheEntry cacheEntry) }
          relationId
  | none => rebuildEntry env st relationId

/-! ## Process-wide generation state, activation gate, erroring lookup -/

/-- The file-static state cleared upon `DROP EXTENSION`: the activation gate
`extensionLoaded` plus the resolved relation, index, and function oids. -/
structure MetadataGlobals where
  extensionLoaded : Bool
  distShardRelationId : Nat
  distShardPlacementRelationId : Nat
  distNodeRelationId : Nat
  distPartitionRelationId : Nat
  distPartitionLogicalRelidIndexId : Nat
  distShardLogicalRelidIndexId : Nat
  distShardShardidIndexId : Nat
  distShardPlacementShardidIndexId : Nat
  extraDataContainerFuncId : Nat
deriving DecidableEq, Repr

/-- `CachedRelationLookup`: resolve a `pg_catalog` relation name once and keep
the oid; error if the relation cannot be found. -/
def CachedRelationLookup (env : Env) (relationName : String) (cachedOid : Nat) :
    Except LookupError Nat :=
  if cachedOid = InvalidOid then
    if env.relnameOid relationName = InvalidOid then .error .cacheLookupFailed
    else .ok (env.relnameOid relationName)
  else .ok cachedOid

/-- `CitusHasBeenLoaded`: once loaded, stay loaded (until reset); otherwise
re-probe the extension, and on a positive determination cache
`pg_dist_partition`'s oid so the invalidation callback can recognize it. -/
def CitusHasBeenLoaded (env : Env) (g : MetadataGlobals) :
    Except LookupError Bool × MetadataGlobals :=
  if g.extensionLoaded then (.ok true, g)
  else
    let extensionPresent := env.extensionOid ≠ InvalidOid
    let extensionScriptExecuted :=
      !(extensionPresent && env.creatingExtension &&
        (env.currentExtensionObject == env.extensionOid))
    if extensionPresent ∧ extensionScriptExecuted then
      match CachedRelationLookup env "pg_dist_partition" g.distPartitionRelationId with
      | .error e => (.error e, { g with extensionLoaded := true })
      | .ok oid => (.ok true, { g with extensionLoaded := true,
                                       distPartitionRelationId := oid })
    else (.ok false, g)

/-- `DistributedTableCacheEntry`: returns NULL (here `none`) if the extension
has not been loaded; otherwise looks the relation up and errors if it is not
distributed. -/
def DistributedTableCacheEntry (env : Env) (g : MetadataGlobals) (st : CacheState)
    (relationId : Nat) :
    Except LookupError (Option DistTableCacheEntry) × MetadataGlobals × CacheState :=
  match CitusHasBeenLoaded env g with
  | (.error e, g1) => (.error e, g1, st)
  | (.ok false, g1) => (.ok none, g1, st)
  | (.ok true, g1) =>
      match LookupDistTableCacheEntry env st relationId with
      | (.error e, st1) => (.error e, g1, st1)
      | (.ok cacheEntry, st1) =>
          if cacheEntry.isDistributedTable then (.ok (some cacheEntry), g1, st1)
          else (.error .notDistributed, g1, st1)

/-! ## Invalidation callback -/

/-- `InvalidateDistRelationCacheCallback`: a wildcard notification
(`InvalidOid`) clears `isValid` on every cached entry; a point notification
clears it on the matching entry, if any; and a point notification for the
cached `pg_dist_partition` oid additionally drops all process-wide state. -/
def InvalidateDistRelationCacheCallback (g : MetadataGlobals)
    (cache : List DistTableCacheEntry) (relationId : Nat) :
    MetadataGlobals × List DistTableCacheEntry :=
  let cache1 :=
    if relationId = InvalidOid then
      cache.map (fun e => { e with isValid := false })
    else invalidateEntry cache relationId
  let g1 :=
    if relationId ≠ InvalidOid ∧ relationId = g.distPartitionRelationId then
      { extensionLoaded := false,
        distShardRelationId := InvalidOid,
        distShardPlacementRelationId := InvalidOid,
        distNodeRelationId := InvalidOid,
        distPartitionRelationId := InvalidOid,
        distPartitionLogicalRelidIndexId := InvalidOid,
        distShardLogicalRelidIndexId := InvalidOid,
        distShardShardidIndexId := InvalidOid,
        distShardPlacementShardidIndexId := InvalidOid,
        extraDataContainerFuncId := InvalidOid }
    else g
  (g1, cache1)

/-! ## Worker node registry -/

/-- `WorkerNode`, keyed by `nodeId`. -/
structure WorkerNode where
  nodeId : Nat
  workerName : String
  workerPort : Nat
  workerRole : Char
  workerActive : Bool
  groupId : Nat
deriving DecidableEq, Repr

/-- `hash_search(WorkerNodeHash, &nodeId, HASH_ENTER, &handleFound)` followed
by filling every field from the current row: the existing entry for the key is
overwritten, or a fresh one appended; the second component reports
`handleFound`. -/
def hashEnterNode : List WorkerNode → WorkerNode → List WorkerNode × Bool
  | [], node => ([node], false)
  | w :: rest, node =>
      if w.nodeId = node.nodeId then (node :: rest, true)
      else ((hashEnterNode rest node).1.cons w, (hashEnterNode rest node).2)

/-- The row loop of `InitializeWorkerNodeCache`: insert each row by `nodeId`,
emitting one warning per collision (`handleFound`). -/
def workerCacheLoop (hash : List WorkerNode) (warningCount : Nat) :
    List WorkerNode → List WorkerNode × Nat
  | [] => (hash, warningCount)
  | node :: rest =>
      workerCacheLoop (hashEnterNode hash node).1
        (if (hashEnterNode hash node).2 then warningCount + 1 else warningCount) rest

/-- `InitializeWorkerNodeCache` restricted to its observable effect: fold the
rows read from `pg_dist_node` into a fresh hash, counting collision warnings. -/
def InitializeWorkerNodeCache (workerNodeList : List WorkerNode) :
    List WorkerNode × Nat :=
  workerCacheLoop [] 0 workerNodeList

/-! ## Cache-slot lemmas -/

theorem findEntry_setEntry_self (cache : List DistTableCacheEntry) (relationId : Nat)
    (e : DistTableCacheEntry) (he : e.relationId = relationId) :
    findEntry (setEntry cache relationId e) relationId = some e := by
  induction cache with
  | nil => simp [setEntry, findEntry, List.find?, he]
  | cons x rest ih =>
      unfold setEntry
      by_cases hx : x.relationId = relationId
      · simp [findEntry, List.find?, hx, he]
      · rw [if_neg hx]
        unfold findEntry at ih ⊢
        simp only [List.find?]
        rw [show (x.relationId == relationId) = false by simp [hx]]
        exact ih

theorem findEntry_setEntry_other (cache : List DistTableCacheEntry)
    (relationId other : Nat) (e : DistTableCacheEntry)
    (hne : other ≠ relationId) (he : e.relationId = relationId) :
    findEntry (setEntry cache relationId e) other = findEntry cache other := by
  induction cache with
  | nil =>
      unfold setEntry findEntry
      simp only [List.find?]
      rw [show (e.relationId == other) = false by simp [he]; omega]
  | cons x rest ih =>
      unfold setEntry
      by_cases hx : x.relationId = relationId
      · rw [if_pos hx]
        unfold findEntry
        simp only [List.find?]
        rw [show (e.relationId == other) = false by simp [he]; omega,
            show (x.relationId == other) = false by simp [hx]; omega]
      · rw [if_neg hx]
        unfold findEntry at ih ⊢
        simp only [List.find?]
        cases hxo : x.relationId == other with
        | true => rfl
        | false => exact ih

/-- If the resolve step succeeded for a non-HASH method, it produced no hash
function and a false uniform-distribution flag. -/
theorem resolveHashInfo_not_hash (env : Env) (partitionKeyString : Option String)
    (partitionMethod : Char) (sorted : List ShardInterval)
    (hi : Option FmgrInfo × Bool)
    (h : resolveHashInfo env partitionKeyString partitionMethod sorted = .ok hi)
    (hpm : partitionMethod ≠ 'h') : hi = (none, false) := by
  unfold resolveHashInfo at h
  rw [if_neg hpm] at h
  injection h with h
  exact h.symm

/-- Structural facts about the assembled slot contents. -/
theorem assembleEntry_fields (relationId : Nat) (partRow : Option PartitionRow)
    (shardCount : Nat) (shardIntervalArray : List ShardInterval)
    (cmp : Option FmgrInfo) (hashInfo : Option FmgrInfo × Bool) :
    (assembleEntry relationId partRow shardCount shardIntervalArray cmp
        hashInfo).relationId = relationId ∧
    (assembleEntry relationId partRow shardCount shardIntervalArray cmp
        hashInfo).isValid = true ∧
    (assembleEntry relationId partRow shardCount shardIntervalArray cmp
        hashInfo).isDistributedTable = partRow.isSome := by
  cases partRow <;> exact ⟨rfl, rfl, rfl⟩

/-- Structural facts about any successfully built entry: it carries the looked
up key, is valid, is distributed exactly when a partition row exists, and
carries hash state only for HASH tables. -/
theorem buildCacheEntry_ok (env : Env) (relationId : Nat)
    (partRow : Option PartitionRow) (shardRows : List ShardRow)
    (entry : DistTableCacheEntry)
    (h : buildCacheEntry env relationId partRow shardRows = .ok entry) :
    entry.relationId = relationId ∧ entry.isValid = true ∧
    entry.isDistributedTable = partRow.isSome ∧
    (entry.partitionMethod ≠ 'h' →
      entry.hashFunction = none ∧ entry.hasUniformHashDistribution = false) := by
  unfold buildCacheEntry at h
  cases harr : buildShardArrayStep env partRow shardRows with
  | error e => simp only [harr] at h; exact Except.noConfusion h
  | ok shardIntervalArray =>
      simp only [harr] at h
      cases hcmp : compareFnStep env partRow shardIntervalArray shardRows.length with
      | error e => simp only [hcmp] at h; exact Except.noConfusion h
      | ok cmp =>
          simp only [hcmp] at h
          cases hres : resolveHashInfo env (partRow.map PartitionRow.partkey)
              (partMethodOf partRow) (SortShardIntervalArray shardIntervalArray) with
          | error e => simp only [hres] at h; exact Except.noConfusion h
          | ok hashInfo =>
              simp only [hres, Except.ok.injEq] at h
              subst h
              obtain ⟨f1, f2, f3⟩ := assembleEntry_fields relationId partRow
                shardRows.length shardIntervalArray cmp hashInfo
              refine ⟨f1, f2, f3, fun hpm => ?_⟩
              cases partRow with
              | none =>
                  exact ⟨rfl, rfl⟩
              | some r =>
                  have hpm' : partMethodOf (some r) ≠ 'h' := hpm
                  have hzero := resolveHashInfo_not_hash _ _ _ _ _ hres hpm'
                  subst hzero
                  exact ⟨rfl, rfl⟩

/-- On success, a rebuild writes the built entry into the slot and issues
exactly two catalog scans. -/
theorem rebuildEntry_ok (env : Env) (st : CacheState) (relationId : Nat)
    (entry : DistTableCacheEntry) (st' : CacheState)
    (h : rebuildEntry env st relationId = (.ok entry, st')) :
    buildCacheEntry env relationId
        (env.catalog.partitionRows.find? (fun r => r.logicalrelid == relationId))
        (env.catalog.shardRows.filter (fun r => r.logicalrelid == relationId)) =
      .ok entry ∧
    st'.cache = setEntry st.cache relationId entry ∧
    st'.scanCount = st.scanCount + 2 := by
  unfold rebuildEntry at h
  split at h
  · simp only [Prod.mk.injEq] at h
    exact absurd h.1 (by simp)
  · rename_i e hbuild
    simp only [Prod.mk.injEq] at h
    obtain ⟨h1, h2⟩ := h
    injection h1 with h1
    subst h1
    subst h2
    exact ⟨hbuild, rfl, rfl⟩

/-- On failure, a rebuild leaves the cache exactly as it received it (the two
scans are still counted). -/
theorem rebuildEntry_error (env : Env) (st : CacheState) (relationId : Nat)
    (err : LookupError) (st' : CacheState)
    (h : rebuildEntry env st relationId = (.error err, st')) :
    st'.cache = st.cache ∧ st'.scanCount = st.scanCount + 2 := by
  unfold rebuildEntry at h
  split at h
  · simp only [Prod.mk.injEq] at h
    obtain ⟨-, h2⟩ := h
    subst h2
    exact ⟨rfl, rfl⟩
  · simp only [Prod.mk.injEq] at h
    exact absurd h.1 (by simp)

/-- Any successful lookup leaves a valid entry under the key in the cache it
returns. -/
theorem lookup_ok_finds_entry (env : Env) (st : CacheState)
    (relationId : Nat) (entry : DistTableCacheEntry) (st' : CacheState)
    (h : LookupDistTableCacheEntry env st relationId = (.ok entry, st')) :
    findEntry st'.cache relationId = some entry ∧ entry.isValid = true := by
  unfold LookupDistTableCacheEntry at h
  split at h
  · rename_i cacheEntry hfind
    split at h
    · rename_i hvalid
      obtain ⟨h1, h2⟩ := Prod.mk.injEq .. ▸ h
      injection h1 with h1
      subst h1
      subst h2
      exact ⟨hfind, hvalid⟩
    · obtain ⟨hbuild, hcache, -⟩ := rebuildEntry_ok _ _ _ _ _ h
      obtain ⟨hrid, hvalid, -, -⟩ := buildCacheEntry_ok _ _ _ _ _ hbuild
      rw [hcache]
      exact ⟨findEntry_setEntry_self _ _ _ hrid, hvalid⟩
  · obtain ⟨hbuild, hcache, -⟩ := rebuildEntry_ok _ _ _ _ _ h
    obtain ⟨hrid, hvalid, -, -⟩ := buildCacheEntry_ok _ _ _ _ _ hbuild
    rw [hcache]
    exact ⟨findEntry_setEntry_self _ _ _ hrid, hvalid⟩

/-- Claim C7: a successful lookup leaves a valid entry for the key in the
cache, and an immediately repeated lookup returns the same entry and the same
state (in particular the scan counter is unchanged: the fast path performs no
catalog scan). -/
theorem C7_lookup_idempotent_no_rescan (env : Env) (st : CacheState)
    (relationId : Nat) (entry : DistTableCacheEntry) (st' : CacheState)
    (h : LookupDistTableCacheEntry env st relationId = (.ok entry, st')) :
    LookupDistTableCacheEntry env st' relationId = (.ok entry, st') ∧
    findEntry st'.cache relationId = some entry ∧ entry.isValid = true := by
  have key := lookup_ok_finds_entry env st relationId entry st' h
  refine ⟨?_, key⟩
  unfold LookupDistTableCacheEntry
  rw [key.1]
  simp [key.2]

/-! ## Invalidation-callback lemmas and claims C4, C5, C8 -/

theorem invalidateEntry_length (cache : List DistTableCacheEntry) (t : Nat) :
    (invalidateEntry cache t).length = cache.length := by
  induction cache with
  | nil => rfl
  | cons x rest ih =>
      unfold invalidateEntry
      split <;> simp [ih]

theorem findEntry_invalidateEntry_self (cache : List DistTableCacheEntry) (t : Nat) :
    findEntry (invalidateEntry cache t) t =
      (findEntry cache t).map (fun e => { e with isValid := false }) := by
  induction cache with
  | nil => rfl
  | cons x rest ih =>
      unfold invalidateEntry findEntry
      by_cases hx : x.relationId = t
      · rw [if_pos hx]
        rw [List.find?_cons_of_pos _ (by simp [hx]),
            List.find?_cons_of_pos _ (by simp [hx])]
        rfl
      · rw [if_neg hx]
        rw [List.find?_cons_of_neg _ (by simp [hx]),
            List.find?_cons_of_neg _ (by simp [hx])]
        exact ih

theorem findEntry_invalidateEntry_other (cache : List DistTableCacheEntry)
    (t r : Nat) (hr : r ≠ t) :
    findEntry (invalidateEntry cache t) r = findEntry cache r := by
  induction cache with
  | nil => rfl
  | cons x rest ih =>
      unfold invalidateEntry findEntry
      by_cases hx : x.relationId = t
      · rw [if_pos hx]
        have hxr : (x.relationId == r) = false := by
          simp only [beq_eq_false_iff_ne, ne_eq]
          omega
        rw [List.find?_cons_of_neg _ (by simp; omega),
            List.find?_cons_of_neg _ (by simp; omega)]
      · rw [if_neg hx]
        by_cases hxr : x.relationId = r
        · rw [List.find?_cons_of_pos _ (by simp [hxr]),
              List.find?_cons_of_pos _ (by simp [hxr])]
        · rw [List.find?_cons_of_neg _ (by simp [hxr]),
              List.find?_cons_of_neg _ (by simp [hxr])]
          exact ih

theorem invalidateEntry_not_found (cache : List DistTableCacheEntry) (t : Nat)
    (h : findEntry cache t = none) : invalidateEntry cache t = cache := by
  induction cache with
  | nil => rfl
  | cons x rest ih =>
      unfold findEntry at h ih
      by_cases hx : x.relationId = t
      · rw [List.find?_cons_of_pos _ (by simp [hx])] at h
        exact absurd h (by simp)
      · rw [List.find?_cons_of_neg _ (by simp [hx])] at h
        unfold invalidateEntry
        rw [if_neg hx, ih h]

/-- Claim C4: a wildcard invalidation notification (relation id `InvalidOid`)
clears `isValid` on every currently cached entry — the resulting cache is the
old one with every validity flag false, so no cached entry remains valid. -/
theorem C4_wildcard_invalidates_all (g : MetadataGlobals)
    (cache : List DistTableCacheEntry) :
    (InvalidateDistRelationCacheCallback g cache InvalidOid).2 =
      cache.map (fun e => { e with isValid := false }) ∧
    ∀ e ∈ (InvalidateDistRelationCacheCallback g cache InvalidOid).2,
      e.isValid = false := by
  have hmap : (InvalidateDistRelationCacheCallback g cache InvalidOid).2 =
      cache.map (fun e => { e with isValid := false }) := by
    simp [InvalidateDistRelationCacheCallback]
  refine ⟨hmap, fun e he => ?_⟩
  rw [hmap] at he
  obtain ⟨x, -, hxe⟩ := List.mem_map.mp he
  rw [← hxe]

/-- Three distinct valid cached entries, for exercising the wildcard case. -/
def exampleEntry (relationId : Nat) : DistTableCacheEntry :=
  { relationId := relationId, isValid := true, isDistributedTable := true,
    isOwner := false, isCluster := false, partitionKeyString := some "key",
    partitionMethod := 'h', shardIntervalArrayLength := 0,
    sortedShardIntervalArray := [], shardIntervalCompareFunction := none,
    hashFunction := some 5, hasUninitializedShardInterval := false,
    hasUniformHashDistribution := false }

def wildcardCache : List DistTableCacheEntry :=
  [exampleEntry 11, exampleEntry 12, exampleEntry 13]

def exampleGlobals : MetadataGlobals :=
  { extensionLoaded := true, distShardRelationId := 201,
    distShardPlacementRelationId := 202, distNodeRelationId := 203,
    distPartitionRelationId := 204, distPartitionLogicalRelidIndexId := 205,
    distShardLogicalRelidIndexId := 206, distShardShardidIndexId := 207,
    distShardPlacementShardidIndexId := 208, extraDataContainerFuncId := 209 }

/-- Witness for C4: three distinct valid entries, all invalidated by one
wildcard notification. -/
theorem C4_witness :
    (InvalidateDistRelationCacheCallback exampleGlobals wildcardCache InvalidOid).2 =
      wildcardCache.map (fun e => { e with isValid := false }) ∧
    ({ exampleEntry 11 with isValid := false } : DistTableCacheEntry).isValid = false :=
  ⟨(C4_wildcard_invalidates_all exampleGlobals wildcardCache).1,
   (C4_wildcard_invalidates_all exampleGlobals wildcardCache).2
     { exampleEntry 11 with isValid := false } (by decide)⟩

/-- Claim C5: a point invalidation for an ordinary table `t` (not the
wildcard, not the `pg_dist_partition` oid) only clears the `isValid` flag of
`t`'s entry if one is cached: the globals are untouched, the slot is not
evicted (same cache length), every other entry's slot is unchanged, the
flagged entry keeps all its other fields (nothing is freed), and if `t` is not
cached the cache is left entirely unchanged. -/
theorem C5_point_invalidation_frame (g : MetadataGlobals)
    (cache : List DistTableCacheEntry) (t : Nat)
    (h0 : t ≠ InvalidOid) (hp : t ≠ g.distPartitionRelationId) :
    (InvalidateDistRelationCacheCallback g cache t).1 = g ∧
    findEntry (InvalidateDistRelationCacheCallback g cache t).2 t =
      (findEntry cache t).map (fun e => { e with isValid := false }) ∧
    (∀ r, r ≠ t → findEntry (InvalidateDistRelationCacheCallback g cache t).2 r =
        findEntry cache r) ∧
    (findEntry cache t = none →
        (InvalidateDistRelationCacheCallback g cache t).2 = cache) ∧
    (InvalidateDistRelationCacheCallback g cache t).2.length = cache.length := by
  have hcond : ¬ (t ≠ InvalidOid ∧ t = g.distPartitionRelationId) := by
    intro hc
    exact hp hc.2
  unfold InvalidateDistRelationCacheCallback
  rw [if_neg h0, if_neg hcond]
  exact ⟨rfl, findEntry_invalidateEntry_self cache t,
         fun r hr => findEntry_invalidateEntry_other cache t r hr,
         fun hnone => invalidateEntry_not_found cache t hnone,
         invalidateEntry_length cache t⟩

/-- Witness for C5: invalidating table 11 in a three-entry cache. -/
theorem C5_witness :
    (InvalidateDistRelationCacheCallback exampleGlobals wildcardCache 11).1 =
      exampleGlobals ∧
    findEntry (InvalidateDistRelationCacheCallback exampleGlobals wildcardCache 11).2 11 =
      (findEntry wildcardCache 11).map (fun e => { e with isValid := false }) ∧
    (∀ r, r ≠ 11 →
        findEntry (InvalidateDistRelationCacheCallback exampleGlobals wildcardCache 11).2 r =
          findEntry wildcardCache r) ∧
    (findEntry wildcardCache 11 = none →
        (InvalidateDistRelationCacheCallback exampleGlobals wildcardCache 11).2 =
          wildcardCache) ∧
    (InvalidateDistRelationCacheCallback exampleGlobals wildcardCache 11).2.length =
      wildcardCache.length :=
  C5_point_invalidation_frame exampleGlobals wildcardCache 11 (by decide) (by decide)

/-- Claim C8: a point invalidation whose id equals the cached
`pg_dist_partition` oid performs the full reset in that single transition: the
activation gate flips to inactive and every resolved relation, index, and
function oid is dropped back to `InvalidOid` together. -/
theorem C8_partition_notification_resets_all (g : MetadataGlobals)
    (cache : List DistTableCacheEntry) (relationId : Nat)
    (h0 : relationId ≠ InvalidOid) (h1 : relationId = g.distPartitionRelationId) :
    (InvalidateDistRelationCacheCallback g cache relationId).1 =
      { extensionLoaded := false,
        distShardRelationId := InvalidOid,
        distShardPlacementRelationId := InvalidOid,
        distNodeRelationId := InvalidOid,
        distPartitionRelationId := InvalidOid,
        distPartitionLogicalRelidIndexId := InvalidOid,
        distShardLogicalRelidIndexId := InvalidOid,
        distShardShardidIndexId := InvalidOid,
        distShardPlacementShardidIndexId := InvalidOid,
        extraDataContainerFuncId := InvalidOid } := by
  subst h1
  unfold InvalidateDistRelationCacheCallback
  simp [h0]

/-- Witness for C8: the notification carrying the resolved
`pg_dist_partition` oid (204) of the example globals. -/
theorem C8_witness :
    (InvalidateDistRelationCacheCallback exampleGlobals wildcardCache 204).1 =
      { extensionLoaded := false,
        distShardRelationId := InvalidOid,
        distShardPlacementRelationId := InvalidOid,
        distNodeRelationId := InvalidOid,
        distPartitionRelationId := InvalidOid,
        distPartitionLogicalRelidIndexId := InvalidOid,
        distShardLogicalRelidIndexId := InvalidOid,
        distShardShardidIndexId := InvalidOid,
        distShardPlacementShardidIndexId := InvalidOid,
        extraDataContainerFuncId := InvalidOid } :=
  C8_partition_notification_resets_all exampleGlobals wildcardCache 204
    (by decide) (by decide)

/-! ## Lookup-path characterizations and claims C3, C6, C10 -/

theorem lookup_eq_fast (env : Env) (st : CacheState) (relationId : Nat)
    (e0 : DistTableCacheEntry) (hfind : findEntry st.cache relationId = some e0)
    (hvalid : e0.isValid = true) :
    LookupDistTableCacheEntry env st relationId = (.ok e0, st) := by
  unfold LookupDistTableCacheEntry
  rw [hfind]
  simp [hvalid]

theorem lookup_eq_rebuild_invalid (env : Env) (st : CacheState) (relationId : Nat)
    (e0 : DistTableCacheEntry) (hfind : findEntry st.cache relationId = some e0)
    (hvalid : e0.isValid = false) :
    LookupDistTableCacheEntry env st relationId =
      rebuildEntry env
        { st with cache := setEntry st.cache relationId (ResetDistTableCacheEntry e0) }
        relationId := by
  unfold LookupDistTableCacheEntry
  rw [hfind]
  simp [hvalid]

theorem lookup_eq_rebuild_miss (env : Env) (st : CacheState) (relationId : Nat)
    (hfind : findEntry st.cache relationId = none) :
    LookupDistTableCacheEntry env st relationId = rebuildEntry env st relationId := by
  unfold LookupDistTableCacheEntry
  rw [hfind]

/-- Claim C3 (amended): the entry slot is written with the newly built entry
only after the full build succeeds; when the build fails the error propagates
and the cache keeps the previous slot contents — except that a previously
cached invalid entry has already had its owned derived state released
(`ResetDistTableCacheEntry`) before the fallible build steps ran, so it is not
left byte-for-byte untouched. -/
theorem C3_failed_rebuild_slot_state (env : Env) (st : CacheState)
    (relationId : Nat) :
    (∀ err, (LookupDistTableCacheEntry env st relationId).1 = .error err →
        (LookupDistTableCacheEntry env st relationId).2.cache =
          (match findEntry st.cache relationId with
           | none => st.cache
           | some e0 => setEntry st.cache relationId (ResetDistTableCacheEntry e0))) ∧
    (∀ e, (LookupDistTableCacheEntry env st relationId).1 = .ok e →
        findEntry (LookupDistTableCacheEntry env st relationId).2.cache relationId =
          some e ∧ e.isValid = true) := by
  constructor
  · intro err herr
    cases hfind : findEntry st.cache relationId with
    | none =>
        have hL := lookup_eq_rebuild_miss env st relationId hfind
        rcases hre : rebuildEntry env st relationId with ⟨res, stOut⟩
        rw [hre] at hL
        rw [hL] at herr
        have hres : res = .error err := herr
        subst hres
        obtain ⟨hc, -⟩ := rebuildEntry_error env st relationId err stOut hre
        rw [hL]
        exact hc
    | some e0 =>
        by_cases hvalid : e0.isValid = true
        · have hL := lookup_eq_fast env st relationId e0 hfind hvalid
          rw [hL] at herr
          exact absurd herr (by simp)
        · have hvalid' : e0.isValid = false := by
            simpa using hvalid
          have hL := lookup_eq_rebuild_invalid env st relationId e0 hfind hvalid'
          rcases hre : rebuildEntry env
              { st with cache := setEntry st.cache relationId
                          (ResetDistTableCacheEntry e0) } relationId with ⟨res, stOut⟩
          rw [hre] at hL
          rw [hL] at herr
          have hres : res = .error err := herr
          subst hres
          obtain ⟨hc, -⟩ := rebuildEntry_error env _ relationId err stOut hre
          rw [hL]
          exact hc
  · intro e hok
    have hpair : LookupDistTableCacheEntry env st relationId =
        (.ok e, (LookupDistTableCacheEntry env st relationId).2) := by
      rw [← hok]
    exact lookup_ok_finds_entry env st relationId e _ hpair

/-- An environment whose catalog holds a partition row with the unsupported
method `z` for relation 5 and one shard row, so a rebuild of relation 5 fails
in `GetPartitionTypeInputInfo` after the shard scan. -/
def envC3 : Env :=
  { catalog := { partitionRows := [{ logicalrelid := 5, partmethod := 'z',
                                     partkey := "keyexpr", isowner := false,
                                     iscluster := false }],
                 shardRows := [{ logicalrelid := 5, shardid := 501,
                                 shardstorage := 't', shardminvalue := some "0",
                                 shardmaxvalue := some "10" }] },
    varType := fun _ => some (23, -1),
    typeIoData := fun _ => some (4, true),
    parseValue := fun _ _ _ => some 0,
    resolveCompare := fun _ => some 1,
    resolveHash := fun _ => some 2,
    extensionOid := 3, creatingExtension := false, currentExtensionObject := 0,
    relnameOid := fun _ => 100 }

/-- A previously cached, now invalid, entry for relation 5 that still owns
derived state (a shard array, a comparison function, a hash function). -/
def staleEntryC3 : DistTableCacheEntry :=
  { relationId := 5, isValid := false, isDistributedTable := true,
    isOwner := false, isCluster := false, partitionKeyString := some "keyexpr",
    partitionMethod := 'h', shardIntervalArrayLength := 1,
    sortedShardIntervalArray := [⟨5, 501, 't', 23, 4, true, true, true, 0, 10⟩],
    shardIntervalCompareFunction := some 1, hashFunction := some 2,
    hasUninitializedShardInterval := false, hasUniformHashDistribution := false }

def stC3 : CacheState := { cache := [staleEntryC3], scanCount := 0 }

/-- Counterexample to C3 as stated: the rebuild of relation 5 fails, yet the
previous (invalid) entry is not left untouched — its derived state was
released before the failing step, so the cache differs from the initial one. -/
theorem C3_counterexample :
    (LookupDistTableCacheEntry envC3 stC3 5).1 = .error .unsupportedPartitionMethod ∧
    (LookupDistTableCacheEntry envC3 stC3 5).2.cache ≠ stC3.cache := by decide

/-- Witness for C3 at the failing scenario: on failure the slot holds the
reset form of the previous entry. -/
theorem C3_witness :
    (LookupDistTableCacheEntry envC3 stC3 5).2.cache =
      (match findEntry stC3.cache 5 with
       | none => stC3.cache
       | some e0 => setEntry stC3.cache 5 (ResetDistTableCacheEntry e0)) :=
  (C3_failed_rebuild_slot_state envC3 stC3 5).1 .unsupportedPartitionMethod (by decide)

/-- Claim C6 (amended): the erroring lookup raises `NotDistributedError`
exactly for tables whose (re)built entry is not distributed — on a cache miss,
exactly when no partition record exists — while an inactive activation gate
makes it return NULL (`none`) without raising anything. -/
theorem C6_erroring_lookup_behavior (env : Env) (g : MetadataGlobals)
    (st : CacheState) (relationId : Nat) :
    (∀ g1, CitusHasBeenLoaded env g = (.ok false, g1) →
        (DistributedTableCacheEntry env g st relationId).1 = .ok none) ∧
    (∀ g1 e st1, CitusHasBeenLoaded env g = (.ok true, g1) →
        LookupDistTableCacheEntry env st relationId = (.ok e, st1) →
        (DistributedTableCacheEntry env g st relationId).1 =
          (if e.isDistributedTable then .ok (some e) else .error .notDistributed)) ∧
    (∀ e st1, findEntry st.cache relationId = none →
        LookupDistTableCacheEntry env st relationId = (.ok e, st1) →
        (e.isDistributedTable = false ↔
          env.catalog.partitionRows.find? (fun r => r.logicalrelid == relationId) =
            none)) := by
  refine ⟨?_, ?_, ?_⟩
  · intro g1 hload
    unfold DistributedTableCacheEntry
    rw [hload]
  · intro g1 e st1 hload hlookup
    unfold DistributedTableCacheEntry
    rw [hload, hlookup]
    by_cases hd : e.isDistributedTable = true <;> simp [hd]
  · intro e st1 hfind hlookup
    have hL := lookup_eq_rebuild_miss env st relationId hfind
    rw [hlookup] at hL
    obtain ⟨hbuild, -, -⟩ := rebuildEntry_ok env st relationId e st1 hL.symm
    obtain ⟨-, -, hdist, -⟩ := buildCacheEntry_ok _ _ _ _ _ hbuild
    rw [hdist]
    cases env.catalog.partitionRows.find? (fun r => r.logicalrelid == relationId) <;>
      simp

/-- Globals before any activation: gate inactive, nothing resolved. -/
def zeroGlobals : MetadataGlobals :=
  { extensionLoaded := false, distShardRelationId := InvalidOid,
    distShardPlacementRelationId := InvalidOid, distNodeRelationId := InvalidOid,
    distPartitionRelationId := InvalidOid,
    distPartitionLogicalRelidIndexId := InvalidOid,
    distShardLogicalRelidIndexId := InvalidOid,
    distShardShardidIndexId := InvalidOid,
    distShardPlacementShardidIndexId := InvalidOid,
    extraDataContainerFuncId := InvalidOid }

/-- An environment in which the citus extension is absent (gate stays
inactive) and no table is distributed. -/
def envC6 : Env :=
  { catalog := { partitionRows := [], shardRows := [] },
    varType := fun _ => none,
    typeIoData := fun _ => none,
    parseValue := fun _ _ _ => none,
    resolveCompare := fun _ => none,
    resolveHash := fun _ => none,
    extensionOid := InvalidOid, creatingExtension := false,
    currentExtensionObject := 0,
    relnameOid := fun _ => 100 }

def stEmpty : CacheState := { cache := [], scanCount := 0 }

/-- Counterexample to C6 as stated: relation 5 has no partition record and the
gate is inactive, yet the erroring lookup returns NULL (`none`) instead of
raising `NotDistributedError`. -/
theorem C6_counterexample :
    envC6.catalog.partitionRows.find? (fun r => r.logicalrelid == 5) = none ∧
    (DistributedTableCacheEntry envC6 zeroGlobals stEmpty 5).1 = .ok none ∧
    (DistributedTableCacheEntry envC6 zeroGlobals stEmpty 5).1 ≠
      .error .notDistributed := by decide

/-- An environment with the extension present and resolvable but an empty
catalog: the gate activates and every table is non-distributed. -/
def envActive : Env :=
  { catalog := { partitionRows := [], shardRows := [] },
    varType := fun _ => none,
    typeIoData := fun _ => none,
    parseValue := fun _ _ _ => none,
    resolveCompare := fun _ => none,
    resolveHash := fun _ => none,
    extensionOid := 3, creatingExtension := false, currentExtensionObject := 0,
    relnameOid := fun _ => 100 }

def g1C6 : MetadataGlobals :=
  { zeroGlobals with extensionLoaded := true, distPartitionRelationId := 100 }

/-- The not-distributed entry built for relation 5 against an empty catalog. -/
def entryND5 : DistTableCacheEntry :=
  { relationId := 5, isValid := true, isDistributedTable := false,
    isOwner := false, isCluster := false, partitionKeyString := none,
    partitionMethod := Char.ofNat 0, shardIntervalArrayLength := 0,
    sortedShardIntervalArray := [], shardIntervalCompareFunction := none,
    hashFunction := none, hasUninitializedShardInterval := false,
    hasUniformHashDistribution := false }

def st1C6 : CacheState := { cache := [entryND5], scanCount := 2 }

/-- Witness for C6: with the gate active and relation 5 not distributed, the
erroring lookup raises `NotDistributedError`. -/
theorem C6_witness :
    (DistributedTableCacheEntry envActive zeroGlobals stEmpty 5).1 =
      (if entryND5.isDistributedTable then .ok (some entryND5)
       else .error .notDistributed) :=
  (C6_erroring_lookup_behavior envActive zeroGlobals stEmpty 5).2.1 g1C6 entryND5
    st1C6 (by decide) (by decide)

/-- Witness for C7: after building relation 5's entry once, the repeated
lookup returns it from the cache with an unchanged state. -/
theorem C7_witness :
    LookupDistTableCacheEntry envActive st1C6 5 = (.ok entryND5, st1C6) ∧
    findEntry st1C6.cache 5 = some entryND5 ∧ entryND5.isValid = true :=
  C7_lookup_idempotent_no_rescan envActive stEmpty 5 entryND5 st1C6 (by decide)

/-- Claim C10: a successfully rebuilt entry for a distributed table whose
partition method is APPEND or RANGE has `hasUniformHashDistribution = false`
and stores no hash function, because the uniform-distribution check and
hash-function resolution run only for HASH partitioning. -/
theorem C10_non_hash_entry_has_no_hash_state (env : Env) (st : CacheState)
    (relationId : Nat) (entry : DistTableCacheEntry) (st' : CacheState)
    (h : rebuildEntry env st relationId = (.ok entry, st'))
    (_hdist : entry.isDistributedTable = true)
    (hmethod : entry.partitionMethod = 'a' ∨ entry.partitionMethod = 'r') :
    entry.hasUniformHashDistribution = false ∧ entry.hashFunction = none := by
  obtain ⟨hbuild, -, -⟩ := rebuildEntry_ok env st relationId entry st' h
  obtain ⟨-, -, -, hnh⟩ := buildCacheEntry_ok _ _ _ _ _ hbuild
  have hne : entry.partitionMethod ≠ 'h' := by
    rcases hmethod with h1 | h1 <;> rw [h1] <;> decide
  obtain ⟨hf, hu⟩ := hnh hne
  exact ⟨hu, hf⟩

/-- An environment with a RANGE-distributed relation 7 and no shard rows. -/
def envC10 : Env :=
  { catalog := { partitionRows := [{ logicalrelid := 7, partmethod := 'r',
                                     partkey := "keyexpr", isowner := true,
                                     iscluster := false }],
                 shardRows := [] },
    varType := fun _ => some (23, -1),
    typeIoData := fun _ => some (4, true),
    parseValue := fun _ _ _ => some 0,
    resolveCompare := fun _ => some 1,
    resolveHash := fun _ => some 2,
    extensionOid := 3, creatingExtension := false, currentExtensionObject := 0,
    relnameOid := fun _ => 100 }

/-- The entry built for the RANGE relation 7. -/
def entryC10 : DistTableCacheEntry :=
  { relationId := 7, isValid := true, isDistributedTable := true,
    isOwner := true, isCluster := false, partitionKeyString := some "keyexpr",
    partitionMethod := 'r', shardIntervalArrayLength := 0,
    sortedShardIntervalArray := [], shardIntervalCompareFunction := none,
    hashFunction := none, hasUninitializedShardInterval := false,
    hasUniformHashDistribution := false }

/-- Witness for C10 at the RANGE relation 7. -/
theorem C10_witness :
    entryC10.hasUniformHashDistribution = false ∧ entryC10.hashFunction = none :=
  C10_non_hash_entry_has_no_hash_state envC10 stEmpty 7 entryC10
    { cache := [entryC10], scanCount := 2 } (by decide) (by decide) (by decide)

/-! ## Worker-node registry lemmas and claim C9 -/

theorem hashEnterNode_length (hash : List WorkerNode) (node : WorkerNode) :
    (hashEnterNode hash node).1.length +
      (if (hashEnterNode hash node).2 then 1 else 0) = hash.length + 1 := by
  induction hash with
  | nil => rfl
  | cons w rest ih =>
      unfold hashEnterNode
      by_cases hw : w.nodeId = node.nodeId
      · rw [if_pos hw]
        simp
      · rw [if_neg hw]
        cases hfound : (hashEnterNode rest node).2 with
        | false =>
            rw [hfound] at ih
            simp only [hfound, List.length_cons, List.cons.sizeOf_spec] at ih ⊢
            simp at ih ⊢
            omega
        | true =>
            rw [hfound] at ih
            simp at ih ⊢
            omega

theorem workerCacheLoop_length (rows : List WorkerNode) :
    ∀ hash warn, (workerCacheLoop hash warn rows).1.length +
        (workerCacheLoop hash warn rows).2 = hash.length + warn + rows.length := by
  induction rows with
  | nil =>
      intro hash warn
      simp [workerCacheLoop]
  | cons node rest ih =>
      intro hash warn
      unfold workerCacheLoop
      have h1 := hashEnterNode_length hash node
      cases hfound : (hashEnterNode hash node).2 with
      | false =>
          rw [hfound] at h1
          have h2 := ih (hashEnterNode hash node).1 warn
          simp at h1 ⊢
          omega
      | true =>
          rw [hfound] at h1
          have h2 := ih (hashEnterNode hash node).1 (warn + 1)
          simp at h1 ⊢
          omega

theorem find?_hashEnterNode_self (hash : List WorkerNode) (node : WorkerNode) :
    (hashEnterNode hash node).1.find? (fun w => w.nodeId == node.nodeId) =
      some node := by
  induction hash with
  | nil => exact List.find?_cons_of_pos _ (by simp)
  | cons w rest ih =>
      unfold hashEnterNode
      by_cases hw : w.nodeId = node.nodeId
      · rw [if_pos hw]
        exact List.find?_cons_of_pos _ (by simp)
      · rw [if_neg hw]
        rw [show ((hashEnterNode rest node).1.cons w).find?
              (fun w => w.nodeId == node.nodeId) =
            (hashEnterNode rest node).1.find? (fun w => w.nodeId == node.nodeId)
          from List.find?_cons_of_neg _ (by simp [hw])]
        exact ih

theorem find?_hashEnterNode_other (hash : List WorkerNode) (node : WorkerNode)
    (n : Nat) (hn : node.nodeId ≠ n) :
    (hashEnterNode hash node).1.find? (fun w => w.nodeId == n) =
      hash.find? (fun w => w.nodeId == n) := by
  induction hash with
  | nil => exact List.find?_cons_of_neg _ (by simp [hn])
  | cons w rest ih =>
      unfold hashEnterNode
      by_cases hw : w.nodeId = node.nodeId
      · rw [if_pos hw]
        rw [List.find?_cons_of_neg _ (by simp [hn]),
            List.find?_cons_of_neg _ (by simp [hw, hn])]
      · rw [if_neg hw]
        by_cases hwn : w.nodeId = n
        · rw [show ((hashEnterNode rest node).1.cons w).find?
                (fun w => w.nodeId == n) = some w
            from List.find?_cons_of_pos _ (by simp [hwn]),
            List.find?_cons_of_pos _ (by simp [hwn])]
        · rw [show ((hashEnterNode rest node).1.cons w).find?
                (fun w => w.nodeId == n) =
              (hashEnterNode rest node).1.find? (fun w => w.nodeId == n)
            from List.find?_cons_of_neg _ (by simp [hwn]),
            List.find?_cons_of_neg _ (by simp [hwn])]
          exact ih

theorem workerCacheLoop_find? (rows : List WorkerNode) (n : Nat) :
    ∀ hash warn,
      (workerCacheLoop hash warn rows).1.find? (fun w => w.nodeId == n) =
        (match (rows.filter (fun w => w.nodeId == n)).getLast? with
         | some v => some v
         | none => hash.find? (fun w => w.nodeId == n)) := by
  induction rows with
  | nil =>
      intro hash warn
      rfl
  | cons node rest ih =>
      intro hash warn
      unfold workerCacheLoop
      rw [ih]
      by_cases hn : node.nodeId = n
      · subst hn
        have hstep : (node :: rest).filter (fun w => w.nodeId == node.nodeId) =
            node :: rest.filter (fun w => w.nodeId == node.nodeId) := by
          simp [List.filter_cons]
        rw [hstep]
        cases hfl : rest.filter (fun w => w.nodeId == node.nodeId) with
        | nil =>
            simp only [hfl, List.getLast?_nil, List.getLast?_singleton]
            exact find?_hashEnterNode_self hash node
        | cons b l' =>
            simp only [List.getLast?_cons_cons]
            obtain ⟨v, hv⟩ := Option.isSome_iff_exists.mp
              (List.getLast?_isSome.mpr (by simp : (b :: l') ≠ []))
            rw [hv]
      · have hstep : (node :: rest).filter (fun w => w.nodeId == n) =
            rest.filter (fun w => w.nodeId == n) := by
          simp [List.filter_cons, hn]
        rw [hstep]
        cases hfl : rest.filter (fun w => w.nodeId == n) with
        | nil =>
            simp only [hfl, List.getLast?_nil]
            exact find?_hashEnterNode_other hash node n hn
        | cons b l' => rfl

/-- Uniqueness of `nodeId` across a hash — the defining invariant of the
worker-node hash table. -/
def uniqueNodeIds (hash : List WorkerNode) : Prop :=
  hash.Pairwise (fun a b => a.nodeId ≠ b.nodeId)

theorem mem_hashEnterNode (hash : List WorkerNode) (node b : WorkerNode)
    (hb : b ∈ (hashEnterNode hash node).1) : b ∈ hash ∨ b = node := by
  induction hash with
  | nil =>
      rcases List.mem_singleton.mp hb with rfl
      exact Or.inr rfl
  | cons w rest ih =>
      unfold hashEnterNode at hb
      by_cases hw : w.nodeId = node.nodeId
      · rw [if_pos hw] at hb
        rcases List.mem_cons.mp hb with rfl | hmem
        · exact Or.inr rfl
        · exact Or.inl (List.mem_cons_of_mem _ hmem)
      · rw [if_neg hw] at hb
        rcases List.mem_cons.mp hb with rfl | hmem
        · exact Or.inl (List.mem_cons_self _ _)
        · rcases ih hmem with h1 | h1
          · exact Or.inl (List.mem_cons_of_mem _ h1)
          · exact Or.inr h1

theorem uniqueNodeIds_hashEnterNode (hash : List WorkerNode) (node : WorkerNode)
    (hu : uniqueNodeIds hash) : uniqueNodeIds (hashEnterNode hash node).1 := by
  induction hash with
  | nil => simp [hashEnterNode, uniqueNodeIds]
  | cons w rest ih =>
      obtain ⟨hw1, hw2⟩ := List.pairwise_cons.mp hu
      unfold hashEnterNode
      by_cases hw : w.nodeId = node.nodeId
      · rw [if_pos hw]
        refine List.pairwise_cons.mpr ⟨?_, hw2⟩
        intro b hb
        rw [← hw]
        exact hw1 b hb
      · rw [if_neg hw]
        refine List.pairwise_cons.mpr ⟨?_, ih hw2⟩
        intro b hb
        rcases mem_hashEnterNode rest node b hb with h1 | h1
        · exact hw1 b h1
        · rw [h1]
          exact hw

theorem uniqueNodeIds_workerCacheLoop (rows : List WorkerNode) :
    ∀ hash warn, uniqueNodeIds hash →
      uniqueNodeIds (workerCacheLoop hash warn rows).1 := by
  induction rows with
  | nil =>
      intro hash warn hu
      exact hu
  | cons node rest ih =>
      intro hash warn hu
      exact ih _ _ (uniqueNodeIds_hashEnterNode hash node hu)

theorem filter_length_le_one_of_unique (l : List WorkerNode) (n : Nat)
    (hu : uniqueNodeIds l) :
    (l.filter (fun w => w.nodeId == n)).length ≤ 1 := by
  induction l with
  | nil => simp
  | cons w rest ih =>
      obtain ⟨hw1, hw2⟩ := List.pairwise_cons.mp hu
      by_cases hw : w.nodeId = n
      · have hnil : rest.filter (fun w => w.nodeId == n) = [] := by
          rw [List.filter_eq_nil_iff]
          intro b hb
          simp only [beq_iff_eq]
          intro hbn
          exact (hw1 b hb) (hw.trans hbn.symm)
        rw [List.filter_cons_of_pos (by simp [hw]), hnil]
        simp
      · rw [List.filter_cons_of_neg (by simp [hw])]
        exact ih hw2

theorem filter_length_pos_of_find? (l : List WorkerNode)
    (p : WorkerNode → Bool) (v : WorkerNode) (h : l.find? p = some v) :
    0 < (l.filter p).length := by
  have hv := List.mem_of_find?_eq_some h
  have hp := List.find?_some h
  have hmem : v ∈ l.filter p := List.mem_filter.mpr ⟨hv, hp⟩
  exact List.length_pos.mpr (List.ne_nil_of_mem hmem)

/-- Claim C9: when two or more node rows share a `nodeId`, the built registry
holds exactly one entry for that id — the one from whichever row was processed
last — one (non-fatal) warning is counted per collision, and the build
completes with a usable mapping. -/
theorem C9_worker_node_duplicates_last_wins (rows : List WorkerNode) (n : Nat)
    (hdup : 1 < (rows.filter (fun w => w.nodeId == n)).length) :
    ((InitializeWorkerNodeCache rows).1.filter (fun w => w.nodeId == n)).length = 1 ∧
    (InitializeWorkerNodeCache rows).1.find? (fun w => w.nodeId == n) =
      (rows.filter (fun w => w.nodeId == n)).getLast? ∧
    (InitializeWorkerNodeCache rows).2 =
      rows.length - (InitializeWorkerNodeCache rows).1.length := by
  unfold InitializeWorkerNodeCache
  have hfind := workerCacheLoop_find? rows n [] 0
  obtain ⟨v, hv⟩ : ∃ v, (rows.filter (fun w => w.nodeId == n)).getLast? = some v := by
    cases hl : (rows.filter (fun w => w.nodeId == n)).getLast? with
    | some v => exact ⟨v, rfl⟩
    | none =>
        rw [List.getLast?_eq_none_iff] at hl
        rw [hl] at hdup
        simp at hdup
  rw [hv] at hfind
  have hfind' : (workerCacheLoop [] 0 rows).1.find? (fun w => w.nodeId == n) =
      some v := hfind
  have hlen := workerCacheLoop_length rows [] 0
  have hu := uniqueNodeIds_workerCacheLoop rows [] 0 (by simp [uniqueNodeIds])
  refine ⟨?_, ?_, ?_⟩
  · have h1 := filter_length_le_one_of_unique (workerCacheLoop [] 0 rows).1 n hu
    have h2 := filter_length_pos_of_find? (workerCacheLoop [] 0 rows).1 _ v hfind'
    omega
  · rw [hfind', hv]
  · simp only [List.length_nil] at hlen
    omega

/-- The spec's duplicate scenario: two rows with `nodeId = 7` and different
names. -/
def duplicateNodeRows : List WorkerNode :=
  [⟨7, "alpha", 5432, 'p', true, 0⟩, ⟨7, "beta", 5433, 'p', true, 0⟩]

/-- Witness for C9 at the duplicate-`nodeId = 7` scenario. -/
theorem C9_witness :
    ((InitializeWorkerNodeCache duplicateNodeRows).1.filter
        (fun w => w.nodeId == 7)).length = 1 ∧
    (InitializeWorkerNodeCache duplicateNodeRows).1.find? (fun w => w.nodeId == 7) =
      (duplicateNodeRows.filter (fun w => w.nodeId == 7)).getLast? ∧
    (InitializeWorkerNodeCache duplicateNodeRows).2 =
      duplicateNodeRows.length - (InitializeWorkerNodeCache duplicateNodeRows).1.length :=
  C9_worker_node_duplicates_last_wins duplicateNodeRows 7 (by decide)

end Citus
